import Mathlib

/-!
Verification of the `sc_unit_agg.py` pipeline (Source Loader, Unit
Filter/Aggregator, Report Writer) against its specification.

Embedding conventions:
* A spreadsheet cell is `Option String`: `none` models a missing value (NaN),
  `some s` models a cell whose pandas `astype(str)` form is `s`.  The pandas
  conversion of a missing cell to text yields the string "nan" (`cellText`).
* Monetary values are exact rationals `ℚ`; Python floats are modelled by their
  exact decimal value, and `float(...)` parsing is modelled on plain decimal
  literals (optional sign, digits, optional fractional part).  A parse failure
  is fatal for the whole invocation, modelled by `Option`/`none`.
* Python `dict` insertion order and overwrite-on-collision semantics are
  modelled by association lists (`dictInsert`).
* File-system facts (`os.path.isdir`, `os.path.isfile`, `os.listdir`) are
  modelled by the `PathInput` data type; interactive dialogs are modelled by
  passing their result (a path string, `""` when cancelled) as an argument.
-/

namespace ScUnitAgg

/-! ### String primitives (Python `str.lower`, `startswith`, `endswith`) -/

/-- ASCII lower-casing of one character, as Python `str.lower` acts on the
ASCII range (all file names in scope are ASCII). -/
def lowerChar (c : Char) : Char :=
  if 'A' ≤ c ∧ c ≤ 'Z' then Char.ofNat (c.toNat + 32) else c

/-- Python `s.lower()` on ASCII strings. -/
def pyLower (s : String) : String := ⟨s.data.map lowerChar⟩

/-- Python `s.startswith(t)`. -/
def strStartsWith (s t : String) : Bool := t.data.isPrefixOf s.data

/-- Python `s.endswith(t)`. -/
def strEndsWith (s t : String) : Bool := t.data.isSuffixOf s.data

/-! ### Source Loader: eligibility and label derivation -/

/-- The extension half of `is_valid_file`:
`fname.lower().endswith(('.xls', '.xlsx'))`. -/
def extOk (fname : String) : Bool :=
  strEndsWith (pyLower fname) ".xls" || strEndsWith (pyLower fname) ".xlsx"

/-- Eligibility test `is_valid_file` from `import_excel_files`:
`fname.startswith("Sales Journal for ") and fname.lower().endswith(('.xls', '.xlsx'))`. -/
def is_valid_file (fname : String) : Bool :=
  strStartsWith fname "Sales Journal for " && extOk fname

/-- The literal part of the regex `r"Sales Journal for ([A-Za-z]+ \d{4})"`. -/
def journalLit : List Char := "Sales Journal for ".data

/-- The `[A-Za-z]+ \d{4}` part of the regex, applied right after the literal.
Greedy `[A-Za-z]+` followed by a space can only succeed on the maximal letter
run, so the backtracking regex engine is equivalent to `takeWhile isAlpha`. -/
def matchAfterLit (rest : List Char) : Option (List Char) :=
  if (rest.takeWhile Char.isAlpha).isEmpty then none
  else
    match rest.drop (rest.takeWhile Char.isAlpha).length with
    | ' ' :: d1 :: d2 :: d3 :: d4 :: _ =>
      if d1.isDigit && d2.isDigit && d3.isDigit && d4.isDigit then
        some (rest.takeWhile Char.isAlpha ++ ' ' :: [d1, d2, d3, d4])
      else none
    | _ => none

/-- One attempt of the regex `Sales Journal for ([A-Za-z]+ \d{4})` anchored at
the start of `l`; returns the captured group on success. -/
def matchAt (l : List Char) : Option (List Char) :=
  if journalLit.isPrefixOf l then
    matchAfterLit (l.drop journalLit.length)
  else none

/-- Model of `re.search`: try `matchAt` at every position, leftmost match wins. -/
def searchGroup : List Char → Option (List Char)
  | [] => none
  | c :: rest =>
    match matchAt (c :: rest) with
    | some g => some g
    | none => searchGroup rest

/-- Label derivation `extract_month_year` from `import_excel_files`: the regex capture if
`re.search` finds a match, otherwise the whole file name. -/
def extract_month_year (fname : String) : String :=
  match searchGroup fname.data with
  | some g => ⟨g⟩
  | none => fname

/-- The spec's file-name pattern, stated from the spec's words (for claim C3):
`fname` has the exact shape `"Sales Journal for <Month> <Year>.<ext>"` with
`<Month>` a non-empty word of letters and `<Year>` four digits. -/
def specPattern (fname month year ext : String) : Prop :=
  fname = "Sales Journal for " ++ month ++ " " ++ year ++ "." ++ ext ∧
  month.data ≠ [] ∧ (∀ c ∈ month.data, c.isAlpha = true) ∧
  year.data.length = 4 ∧ (∀ c ∈ year.data, c.isDigit = true)

/-- Executable test equivalent to the existence of a `specPattern`
decomposition; used to refute the pattern on concrete file names. -/
def specFormCheck (fname : String) : Bool :=
  if journalLit.isPrefixOf fname.data then
    let rest := fname.data.drop journalLit.length
    let m := rest.takeWhile Char.isAlpha
    if m.isEmpty then false
    else
      match rest.drop m.length with
      | ' ' :: d1 :: d2 :: d3 :: d4 :: '.' :: _ =>
        d1.isDigit && d2.isDigit && d3.isDigit && d4.isDigit
      | _ => false
  else false

/-! ### Tables -/

/-- A pandas `DataFrame` as loaded from one spreadsheet: column names and a
rectangular grid of cells (each cell missing or textual, see file header). -/
structure Table where
  header : List String
  rows : List (List (Option String))
deriving DecidableEq, Repr

/-- pandas `astype(str)` on one cell: a missing value prints as "nan". -/
def cellText (c : Option String) : String := c.getD "nan"

/-- The regex test `str.contains(r'[GHI]')`: some character of `s` is
`'G'`, `'H'` or `'I'` (case-sensitive, anywhere in the string). -/
def containsGHI (s : String) : Bool :=
  s.data.any (fun c => c == 'G' || c == 'H' || c == 'I')

/-- The row mask `df.iloc[:, 1].astype(str).str.contains(r'[GHI]', na=False)`. -/
def maskRow (r : List (Option String)) : Bool :=
  containsGHI (cellText (r.getD 1 none))

/-- Selection `df.loc[mask, ...]`: the rows selected by the mask. -/
def selectRows (df : Table) : List (List (Option String)) :=
  df.rows.filter maskRow

/-- Projection to the category column (index 1) and value column (index 5). -/
def projectRow (r : List (Option String)) : Option String × Option String :=
  (r.getD 1 none, r.getD 5 none)

/-- After selection and projection, drop rows whose value cell is NaN
(`filtered_df[filtered_df[df.columns[5]].notna()]`). -/
def notnaRows (df : Table) : List (Option String × Option String) :=
  ((selectRows df).map projectRow).filter (fun p => p.2.isSome)

/-- Cleaning step `str.replace` with pattern `[\$,()]`: delete every `$`, `,`, `(`, `)`. -/
def stripMoney (s : String) : String :=
  ⟨s.data.filter (fun c => !(c == '$' || c == ',' || c == '(' || c == ')'))⟩

/-- Numeric value of a digit string. -/
def digitsVal (l : List Char) : Nat :=
  l.foldl (fun a c => 10 * a + (c.toNat - 48)) 0

/-- A parsed decimal literal: sign, integer part, fraction part and the
number of fraction digits.  Its exact value is `DecLit.toRat`. -/
structure DecLit where
  neg : Bool
  ip : Nat
  fp : Nat
  fd : Nat
deriving DecidableEq, Repr

/-- Exact rational value of a parsed decimal literal. -/
def DecLit.toRat (d : DecLit) : ℚ :=
  (if d.neg then -1 else 1) * ((d.ip : ℚ) + (d.fp : ℚ) / ((10 : ℚ) ^ d.fd))

/-- Unsigned decimal literal: digits, optionally a point and more digits,
at least one digit in total (`float("1.")`, `float(".5")` parse; `float(".")`,
`float("")` do not). -/
def parseDecimal (neg : Bool) (l : List Char) : Option DecLit :=
  let ip := l.takeWhile Char.isDigit
  match l.drop ip.length with
  | [] => if ip.isEmpty then none else some ⟨neg, digitsVal ip, 0, 0⟩
  | '.' :: fp =>
    if fp.all Char.isDigit && !(ip.isEmpty && fp.isEmpty) then
      some ⟨neg, digitsVal ip, digitsVal fp, fp.length⟩
    else none
  | _ => none

/-- Python `float(s)` on plain signed decimal literals, the forms the cleaned
value column takes; anything else fails, which aborts the run (`astype(float)`
raises). -/
def parseLit (s : String) : Option DecLit :=
  match s.data with
  | '-' :: rest => parseDecimal true rest
  | '+' :: rest => parseDecimal false rest
  | l => parseDecimal false l

/-- Python `float(s)` as an exact rational. -/
def parseFloat (s : String) : Option ℚ :=
  (parseLit s).map DecLit.toRat

/-- The value-cleaning chain
`.astype(str).str.replace(r'[\$,()]', '', regex=True).astype(float).abs()`
on one textual cell. -/
def cleanValue (s : String) : Option ℚ :=
  (parseFloat (stripMoney s)).map (fun q => |q|)

/-- Clean every remaining row; the first unparsable value aborts the whole
invocation (`none`). -/
def cleanPairs : List (Option String × Option String) → Option (List (String × ℚ))
  | [] => some []
  | p :: ps =>
    match cleanValue (cellText p.2), cleanPairs ps with
    | some q, some rest => some ((cellText p.1, q) :: rest)
    | _, _ => none

/-- Rows surviving selection, null drop, cleaning and the zero drop
(`filtered_df[filtered_df[df.columns[5]] != 0]`). -/
def survivors (df : Table) : Option (List (String × ℚ)) :=
  (cleanPairs (notnaRows df)).map (fun l => l.filter (fun p => decide (p.2 ≠ 0)))

/-- One output table of `filter_units`: the two column names when the source
table supplied them (`none` for the default integer columns of
`pd.DataFrame([[msg, 0]])`), and the (category, value) rows. -/
structure FilteredTable where
  colNames : Option (String × String)
  rows : List (String × ℚ)
deriving DecidableEq, Repr

/-- The sentinel row text, exactly as the source spells it. -/
def placeholderMsg : String := "no units of conataining G, H, or I"

/-- The body of `filter_units` for one table, following the source branch by
branch: column-count guard, mask test, null drop, cleaning, zero drop,
empty guard, total row. -/
def filterTable (df : Table) : Option FilteredTable :=
  if df.header.length < 6 then
    some ⟨none, [(placeholderMsg, 0)]⟩
  else if df.rows.any maskRow then
    match survivors df with
    | none => none
    | some rs =>
      if rs.isEmpty then
        some ⟨some (df.header.getD 1 "", df.header.getD 5 ""), [(placeholderMsg, 0)]⟩
      else
        some ⟨some (df.header.getD 1 "", df.header.getD 5 ""),
              rs ++ [("Total Rent", (rs.map Prod.snd).sum)]⟩
  else
    some ⟨some (df.header.getD 1 "", df.header.getD 5 ""), [(placeholderMsg, 0)]⟩

/-- The mapping-level `filter_units`: apply `filterTable` to every entry,
keeping keys and order; a value-parse failure anywhere aborts the run. -/
def filter_units : List (String × Table) → Option (List (String × FilteredTable))
  | [] => some []
  | (k, df) :: rest =>
    match filterTable df, filter_units rest with
    | some ft, some fr => some ((k, ft) :: fr)
    | _, _ => none

/-! ### Source Loader -/

/-- The two `ValueError`s of `import_excel_files`: `invalidPath` is
"Path must be an Excel file or a directory …", `noData` is
"No valid Excel files found …". -/
inductive LoadError where
  | invalidPath
  | noData
deriving DecidableEq, Repr

/-- The supplied path, as the file system resolves it: an existing regular
file (with its base name and content), a directory (with its listed entries,
in `os.listdir` order), or neither. -/
inductive PathInput where
  | file (name : String) (tbl : Table)
  | dir (entries : List (String × Table))
  | invalid
deriving DecidableEq, Repr

/-- Python `dict` assignment `d[k] = v`: overwrite in place when the key
exists, else append. -/
def dictInsert (d : List (String × Table)) (k : String) (v : Table) :
    List (String × Table) :=
  if d.any (fun p => p.1 == k) then
    d.map (fun p => if p.1 == k then (k, v) else p)
  else d ++ [(k, v)]

/-- The directory loop of `import_excel_files`: insert each eligible entry
under its derived label. -/
def loadDir : List (String × Table) → List (String × Table) → List (String × Table)
  | acc, [] => acc
  | acc, e :: es =>
    loadDir (if is_valid_file e.1 then dictInsert acc (extract_month_year e.1) e.2 else acc) es

/-- Loader `import_excel_files` with an explicitly supplied path: directory case,
eligible-single-file case, error otherwise; then the emptiness check. -/
def import_excel_files (p : PathInput) : Except LoadError (List (String × Table)) :=
  match p with
  | .dir entries =>
    if (loadDir [] entries).isEmpty then .error .noData
    else .ok (loadDir [] entries)
  | .file name tbl =>
    if is_valid_file name then
      if (dictInsert [] (extract_month_year name) tbl).isEmpty then .error .noData
      else .ok (dictInsert [] (extract_month_year name) tbl)
    else .error .invalidPath
  | .invalid => .error .invalidPath

/-! ### Report Writer -/

/-- The written artifact: its path and its sheets in order. -/
structure Report where
  path : String
  sheets : List (String × FilteredTable)
deriving DecidableEq, Repr

/-- Excel sheet-name truncation `str(sheet_name)[:31]`. -/
def sheetName (s : String) : String := ⟨s.data.take 31⟩

/-- Writer `write_unit_aggregation_report`, with the save dialog's result passed in
(`""` models a cancelled dialog, which is falsy in Python).  Returns the
printed lines and the artifact written, if any. -/
def write_unit_aggregation_report (file_path : String)
    (filtered_dict : List (String × FilteredTable)) :
    List String × Option Report :=
  if file_path = "" then
    (["No file selected. Report not saved."], none)
  else
    (["Report written to " ++ file_path],
     some ⟨file_path, filtered_dict.map (fun p => (sheetName p.1, p.2))⟩)

deriving instance DecidableEq for Except

/-! ### Concrete tables used in scenario theorems and witnesses -/

/-- Spec scenario: one matching row, category "G-204", value "($1,250.00)". -/
def tblG204 : Table :=
  ⟨["c0", "Unit", "c2", "c3", "c4", "Rent"],
   [[none, some "G-204", none, none, none, some "($1,250.00)"]]⟩

/-- Spec scenario: a matching row whose value cell is "$0.00", next to a
matching row with a non-zero value. -/
def tblZero : Table :=
  ⟨["c0", "Unit", "c2", "c3", "c4", "Rent"],
   [[none, some "G-204", none, none, none, some "$0.00"],
    [none, some "H-7", none, none, none, some "$5.00"]]⟩

/-- Spec scenario: a six-column table whose only category entry is "A-101"
(no G, H or I anywhere). -/
def tblNoMatch : Table :=
  ⟨["c0", "Unit", "c2", "c3", "c4", "Rent"],
   [[none, some "A-101", none, none, none, some "$5.00"]]⟩

/-- A table exercising every branch of the filter: a surviving row, a
non-matching row, a second surviving row, a zero-valued row and a null row. -/
def tblMixed : Table :=
  ⟨["A", "Unit", "B", "C", "D", "Rent"],
   [[some "1", some "G-101", none, none, none, some "$100"],
    [some "2", some "A-000", none, none, none, some "$999"],
    [some "3", some "H-202", none, none, none, some "($1,250.00)"],
    [some "4", some "I-303", none, none, none, some "$0.00"],
    [some "5", some "I-404", none, none, none, none]]⟩

/-! ### Helper lemmas about the filter pipeline -/

/-- A cleaned value is an absolute value, hence non-negative. -/
lemma cleanValue_nonneg {s : String} {q : ℚ} (h : cleanValue s = some q) : 0 ≤ q := by
  unfold cleanValue parseFloat at h
  rw [Option.map_map, Option.map_eq_some'] at h
  rcases h with ⟨d, _, hd⟩
  rw [← hd]
  exact abs_nonneg _

/-- Every value produced by `cleanPairs` is non-negative. -/
lemma cleanPairs_nonneg {ps : List (Option String × Option String)}
    {l : List (String × ℚ)} (h : cleanPairs ps = some l) :
    ∀ p ∈ l, 0 ≤ p.2 := by
  induction ps generalizing l with
  | nil =>
    simp only [cleanPairs, Option.some.injEq] at h
    subst h; intro p hp; cases hp
  | cons hd tl ih =>
    rw [cleanPairs] at h
    rcases hv : cleanValue (cellText hd.2) with _ | q
    · rw [hv] at h; cases h
    · rw [hv] at h
      rcases ht : cleanPairs tl with _ | rest
      · rw [ht] at h; cases h
      · rw [ht] at h
        simp only [Option.some.injEq] at h
        subst h
        intro p hp
        rcases List.mem_cons.mp hp with hp | hp
        · subst hp; exact cleanValue_nonneg hv
        · exact ih ht p hp

/-- Every surviving value is strictly positive: non-negative by cleaning,
non-zero by the zero drop. -/
lemma survivors_pos {df : Table} {rs : List (String × ℚ)}
    (h : survivors df = some rs) : ∀ p ∈ rs, 0 < p.2 := by
  unfold survivors at h
  rw [Option.map_eq_some'] at h
  rcases h with ⟨l, hc, hl⟩
  subst hl
  intro p hp
  have hm := List.mem_filter.mp hp
  have hne : p.2 ≠ 0 := of_decide_eq_true hm.2
  exact lt_of_le_of_ne (cleanPairs_nonneg hc p hm.1) (Ne.symm hne)

/-- Only the empty list is cleaned by `cleanPairs` to an empty result. -/
lemma cleanPairs_eq_nil {ps : List (Option String × Option String)}
    (h : cleanPairs ps = some []) : ps = [] := by
  cases ps with
  | nil => rfl
  | cons hd tl =>
    rw [cleanPairs] at h
    rcases hv : cleanValue (cellText hd.2) with _ | q <;> rw [hv] at h
    · cases h
    · rcases ht : cleanPairs tl with _ | rest <;> rw [ht] at h
      · cases h
      · cases h

/-- If some row survives the whole pipeline, some raw row passed the mask. -/
lemma survivors_any {df : Table} {rs : List (String × ℚ)}
    (h : survivors df = some rs) (hne : rs ≠ []) :
    df.rows.any maskRow = true := by
  unfold survivors at h
  rw [Option.map_eq_some'] at h
  rcases h with ⟨l, hc, hl⟩
  have hlne : l ≠ [] := by
    intro hnil
    apply hne
    rw [← hl, hnil]
    rfl
  have hnn : notnaRows df ≠ [] := by
    intro hnil
    rw [hnil, cleanPairs] at hc
    exact hlne (Option.some.inj hc).symm
  have hsel : selectRows df ≠ [] := by
    intro hnil
    apply hnn
    unfold notnaRows
    rw [hnil]
    rfl
  unfold selectRows at hsel
  rcases List.exists_mem_of_ne_nil _ hsel with ⟨r, hr⟩
  have hrm := List.mem_filter.mp hr
  exact List.any_eq_true.mpr ⟨r, hrm.1, hrm.2⟩

/-- When the survivor list is non-empty, `filterTable` appends the total row. -/
lemma filterTable_eq_total (df : Table) (rs : List (String × ℚ))
    (h6 : ¬ df.header.length < 6) (hmask : df.rows.any maskRow = true)
    (hs : survivors df = some rs) (hne : rs ≠ []) :
    filterTable df = some ⟨some (df.header.getD 1 "", df.header.getD 5 ""),
      rs ++ [("Total Rent", (rs.map Prod.snd).sum)]⟩ := by
  unfold filterTable
  rw [if_neg h6, if_pos hmask, hs]
  simp [List.isEmpty_iff, hne]

/-- Evaluation of one cleaned value, stated for reuse on concrete cells:
the parse result determines the cleaned value. -/
lemma cleanValue_of_parse {s : String} {d : DecLit}
    (h : parseLit (stripMoney s) = some d) :
    cleanValue s = some |d.toRat| := by
  unfold cleanValue parseFloat
  rw [h]
  rfl

/-- The placeholder row never matches a pair with a different category. -/
lemma not_mem_placeholder (cat : String) (hcat : cat ≠ placeholderMsg) :
    (cat, (0 : ℚ)) ∉ [(placeholderMsg, (0 : ℚ))] := by
  intro hm
  exact hcat (congrArg Prod.fst (List.mem_singleton.mp hm))

/-! ### Claim theorems -/

/-- C1: for every raw table with at least 6 columns where at least one row
survives row selection, null drop, value cleaning and zero drop, the
filtered table produced by `filter_units` is exactly the surviving rows
followed by one appended row labelled "Total Rent" whose value is the exact
sum of the surviving cleaned values; and every surviving cleaned value is
strictly positive. -/
theorem filter_units_total_row (k : String) (df : Table) (rs : List (String × ℚ))
    (h6 : 6 ≤ df.header.length) (hs : survivors df = some rs) (hne : rs ≠ []) :
    filter_units [(k, df)] =
      some [(k, ⟨some (df.header.getD 1 "", df.header.getD 5 ""),
        rs ++ [("Total Rent", (rs.map Prod.snd).sum)]⟩)] ∧
    ∀ p ∈ rs, 0 < p.2 := by
  have hft := filterTable_eq_total df rs (by omega) (survivors_any hs hne) hs hne
  refine ⟨?_, survivors_pos hs⟩
  unfold filter_units
  rw [hft]
  rfl

/-- Witness for `filter_units_total_row`: the mixed five-row table; the rows
"G-101"/"$100" and "H-202"/"($1,250.00)" survive, "A-000" fails the mask,
"$0.00" is zero-dropped and the null value row is dropped. -/
theorem filter_units_total_row_witness :
    filter_units [("May 2024", tblMixed)] =
      some [("May 2024", ⟨some ("Unit", "Rent"),
        [("G-101", 100), ("H-202", 1250), ("Total Rent", 1350)]⟩)] ∧
    ∀ p ∈ [(("G-101" : String), (100 : ℚ)), ("H-202", 1250)], 0 < p.2 := by
  have e1 : parseLit (stripMoney (cellText (some "$100")))
      = some ⟨false, 100, 0, 0⟩ := by decide
  have e2 : parseLit (stripMoney (cellText (some "($1,250.00)")))
      = some ⟨false, 1250, 0, 2⟩ := by decide
  have e3 : parseLit (stripMoney (cellText (some "$0.00")))
      = some ⟨false, 0, 0, 2⟩ := by decide
  have hv1 : cleanValue (cellText (some "$100")) = some 100 := by
    rw [cleanValue_of_parse e1]; simp [DecLit.toRat]
  have hv2 : cleanValue (cellText (some "($1,250.00)")) = some 1250 := by
    rw [cleanValue_of_parse e2]; simp [DecLit.toRat]
  have hv3 : cleanValue (cellText (some "$0.00")) = some 0 := by
    rw [cleanValue_of_parse e3]; simp [DecLit.toRat]
  have h2 : notnaRows tblMixed = [(some "G-101", some "$100"),
      (some "H-202", some "($1,250.00)"), (some "I-303", some "$0.00")] := by decide
  have h3 : survivors tblMixed = some [("G-101", 100), ("H-202", 1250)] := by
    unfold survivors
    rw [h2]
    simp only [cleanPairs, hv1, hv2, hv3]
    decide
  have h := filter_units_total_row "May 2024" tblMixed
    [("G-101", 100), ("H-202", 1250)] (by decide) h3 (by decide)
  have hsum : (100 : ℚ) + 1250 = 1350 := by norm_num
  simpa [tblMixed, hsum] using h

/-- C5: a selected row whose cleaned value equals exactly 0 is discarded from
the filtered table: apart from the placeholder row, no row of any
`filter_units` output carries the value 0 (the total row is strictly
positive too). -/
theorem zero_value_rows_dropped (df : Table) (ft : FilteredTable)
    (h : filterTable df = some ft) (cat : String) (hcat : cat ≠ placeholderMsg) :
    (cat, (0 : ℚ)) ∉ ft.rows := by
  unfold filterTable at h
  split at h
  · injection h with h
    subst h
    exact not_mem_placeholder cat hcat
  · split at h
    · split at h
      · cases h
      next rs heq =>
        have hs : survivors df = some rs := heq
        split at h
        next hrs =>
          injection h with h
          subst h
          exact not_mem_placeholder cat hcat
        next hrs =>
          injection h with h
          subst h
          intro hm
          rcases List.mem_append.mp hm with hm | hm
          · have := survivors_pos hs _ hm
            exact lt_irrefl 0 this
          · have hrne : rs ≠ [] := by
              intro hh
              subst hh
              exact hrs rfl
            have hpos : 0 < (rs.map Prod.snd).sum := by
              apply List.sum_pos
              · intro a ha
                rcases List.mem_map.mp ha with ⟨p, hp, hpa⟩
                rw [← hpa]
                exact survivors_pos hs p hp
              · intro hh
                exact hrne (List.map_eq_nil_iff.mp hh)
            have h0 : (0 : ℚ) = (rs.map Prod.snd).sum :=
              congrArg Prod.snd (List.mem_singleton.mp hm)
            rw [← h0] at hpos
            exact lt_irrefl 0 hpos
    · injection h with h
      subst h
      exact not_mem_placeholder cat hcat

/-- Witness for `zero_value_rows_dropped`: on the table whose "G-204" row has
value cell "$0.00", the output contains the other (positive) row and the
total, but no ("G-204", 0) row. -/
theorem zero_value_rows_dropped_witness :
    ("G-204", (0 : ℚ)) ∉
      (FilteredTable.mk (some ("Unit", "Rent")) [("H-7", 5), ("Total Rent", 5)]).rows := by
  have e1 : parseLit (stripMoney (cellText (some "$0.00")))
      = some ⟨false, 0, 0, 2⟩ := by decide
  have e2 : parseLit (stripMoney (cellText (some "$5.00")))
      = some ⟨false, 5, 0, 2⟩ := by decide
  have hv1 : cleanValue (cellText (some "$0.00")) = some 0 := by
    rw [cleanValue_of_parse e1]; simp [DecLit.toRat]
  have hv2 : cleanValue (cellText (some "$5.00")) = some 5 := by
    rw [cleanValue_of_parse e2]; simp [DecLit.toRat]
  have h2 : notnaRows tblZero = [(some "G-204", some "$0.00"),
      (some "H-7", some "$5.00")] := by decide
  have h3 : survivors tblZero = some [("H-7", 5)] := by
    unfold survivors
    rw [h2]
    simp only [cleanPairs, hv1, hv2]
    decide
  have hft : filterTable tblZero
      = some ⟨some ("Unit", "Rent"), [("H-7", 5), ("Total Rent", 5)]⟩ := by
    have ht := filterTable_eq_total tblZero [("H-7", 5)] (by decide) (by decide) h3 (by decide)
    simpa using ht
  exact zero_value_rows_dropped tblZero _ hft "G-204" (by decide)

/-- C2 (amended): for every raw table with fewer than 6 columns, and for
every raw table with at least 6 columns in which no category-column (index 1)
entry contains 'G', 'H', or 'I', `filter_units` emits exactly the two-cell
placeholder row ("no units of conataining G, H, or I", 0) — with the code's
literal spelling of the message — and performs no further processing of that
table. -/
theorem placeholder_row_emitted (df : Table)
    (h : df.header.length < 6 ∨
      ∀ r ∈ df.rows, containsGHI (cellText (r.getD 1 none)) = false) :
    filterTable df = some ⟨if df.header.length < 6 then none
      else some (df.header.getD 1 "", df.header.getD 5 ""), [(placeholderMsg, 0)]⟩ := by
  by_cases h6 : df.header.length < 6
  · unfold filterTable
    simp only [if_pos h6]
  · have hmask : df.rows.any maskRow = false := by
      rcases h with h | h
      · exact absurd h h6
      · rw [Bool.eq_false_iff]
        intro hc
        rcases List.any_eq_true.mp hc with ⟨r, hr, hm⟩
        unfold maskRow at hm
        rw [h r hr] at hm
        cases hm
    unfold filterTable
    simp only [if_neg h6, hmask]
    rfl

/-- C2 counterexample: the sentinel text in the code is
"no units of conataining G, H, or I", so the row ("no units of containing
G, H, or I", 0) the claim promises is never the one emitted; shown here on a
one-column table. -/
theorem placeholder_text_counterexample :
    filterTable ⟨["only column"], []⟩
        = some ⟨none, [("no units of conataining G, H, or I", 0)]⟩ ∧
    filterTable ⟨["only column"], []⟩
        ≠ some ⟨none, [("no units of containing G, H, or I", 0)]⟩ := by
  decide

/-- Witness for `placeholder_row_emitted`: the six-column "A-101" scenario
table, whose single category entry contains no 'G', 'H' or 'I'. -/
theorem placeholder_row_emitted_witness :
    filterTable tblNoMatch = some ⟨if tblNoMatch.header.length < 6 then none
      else some (tblNoMatch.header.getD 1 "", tblNoMatch.header.getD 5 ""),
      [(placeholderMsg, 0)]⟩ :=
  placeholder_row_emitted tblNoMatch (Or.inr (by decide))

/-- C6: on the scenario table whose matching row has category cell "G-204"
and value cell "($1,250.00)", cleaning strips `$`, `,`, `(`, `)`, parses
1250.00 and takes the absolute value, so the surviving row is
("G-204", 1250) and the appended total row is ("Total Rent", 1250). -/
theorem scenario_g204_total :
    survivors tblG204 = some [("G-204", 1250)] ∧
    filterTable tblG204
      = some ⟨some ("Unit", "Rent"), [("G-204", 1250), ("Total Rent", 1250)]⟩ := by
  have h1 : parseLit (stripMoney (cellText (some "($1,250.00)")))
      = some ⟨false, 1250, 0, 2⟩ := by decide
  have hv : cleanValue (cellText (some "($1,250.00)")) = some 1250 := by
    rw [cleanValue_of_parse h1]
    simp [DecLit.toRat]
  have h2 : notnaRows tblG204 = [(some "G-204", some "($1,250.00)")] := by decide
  have h3 : survivors tblG204 = some [("G-204", 1250)] := by
    unfold survivors
    rw [h2]
    simp only [cleanPairs, hv]
    decide
  refine ⟨h3, ?_⟩
  have ht := filterTable_eq_total tblG204 [("G-204", 1250)]
    (by decide) (by decide) h3 (by decide)
  simpa using ht

/-- C8: when the report destination is not resolved (the save dialog was
cancelled, modelled by the empty path), the writer prints that nothing was
saved, writes no artifact, and returns normally. -/
theorem report_not_written_on_cancel (d : List (String × FilteredTable))
    (fp : String) (h : fp = "") :
    write_unit_aggregation_report fp d
      = (["No file selected. Report not saved."], none) := by
  subst h
  rfl

/-- Witness for `report_not_written_on_cancel`. -/
theorem report_not_written_on_cancel_witness :
    write_unit_aggregation_report ""
        [("March 2024", ⟨some ("Unit", "Rent"), [("Total Rent", 0)]⟩)]
      = (["No file selected. Report not saved."], none) :=
  report_not_written_on_cancel
    [("March 2024", ⟨some ("Unit", "Rent"), [("Total Rent", 0)]⟩)] "" rfl

/-- C9: `filter_units` is deterministic — it is a pure function of the input
mapping, so two runs on the same input give identical filtered output. -/
theorem filter_units_deterministic (d : List (String × Table)) :
    filter_units d = filter_units d := rfl

/-! ### Helper lemmas about eligibility and label derivation -/

/-- Lower-casing distributes over concatenation. -/
lemma pyLower_append (s t : String) : pyLower (s ++ t) = pyLower s ++ pyLower t := by
  apply String.ext
  simp [pyLower]

/-- Lower-casing preserves length. -/
lemma pyLower_data_length (s : String) : (pyLower s).data.length = s.data.length := by
  simp [pyLower]

/-- A string always ends with its own appended suffix. -/
lemma strEndsWith_append (x y : String) : strEndsWith (x ++ y) y = true := by
  unfold strEndsWith
  rw [List.isSuffixOf_iff_suffix, String.data_append]
  exact List.suffix_append _ _

/-- A four-element list destructures into its elements. -/
lemma year_four {y : List Char} (hy4 : y.length = 4) :
    ∃ a b c d, y = [a, b, c, d] := by
  rcases y with _ | ⟨a, y⟩
  · exact absurd hy4 (by decide)
  rcases y with _ | ⟨b, y⟩
  · exact absurd hy4 (by simp)
  rcases y with _ | ⟨c, y⟩
  · exact absurd hy4 (by simp)
  rcases y with _ | ⟨d, y⟩
  · exact absurd hy4 (by simp)
  rcases y with _ | ⟨e, y⟩
  · exact ⟨a, b, c, d, rfl⟩
  · simp only [List.length_cons] at hy4
    omega

/-- The character data of a name of the spec's shape. -/
lemma specPattern_data {fname month year ext : String}
    (h : fname = "Sales Journal for " ++ month ++ " " ++ year ++ "." ++ ext) :
    fname.data = journalLit ++ (month.data ++ ' ' :: (year.data ++ '.' :: ext.data)) := by
  have hsp1 : (" " : String).data = [' '] := rfl
  have hdot : ("." : String).data = ['.'] := rfl
  rw [h]
  simp only [String.data_append, List.append_assoc, hsp1, hdot, List.singleton_append,
    List.cons_append, List.nil_append]
  rfl

/-- The run `takeWhile isAlpha` stops exactly at the space after a letter run. -/
lemma takeWhile_alpha_run (m z : List Char) (hma : ∀ c ∈ m, c.isAlpha = true) :
    (m ++ ' ' :: z).takeWhile Char.isAlpha = m := by
  rw [List.takeWhile_append_of_pos hma,
    List.takeWhile_cons_of_neg (by decide : ¬Char.isAlpha ' ' = true)]
  simp

/-- The regex tail succeeds on a letter run, a space and four digits,
whatever follows. -/
lemma matchAfterLit_of_shape (m y tail : List Char)
    (hm : m ≠ []) (hma : ∀ x ∈ m, x.isAlpha = true)
    (hy4 : y.length = 4) (hyd : ∀ x ∈ y, x.isDigit = true) :
    matchAfterLit (m ++ ' ' :: (y ++ tail)) = some (m ++ ' ' :: y) := by
  obtain ⟨a, b, c, d, rfl⟩ := year_four hy4
  have ha : a.isDigit = true := hyd a (by simp)
  have hb : b.isDigit = true := hyd b (by simp)
  have hc : c.isDigit = true := hyd c (by simp)
  have hd : d.isDigit = true := hyd d (by simp)
  have htw := takeWhile_alpha_run m ([a, b, c, d] ++ tail) hma
  unfold matchAfterLit
  rw [htw, List.drop_left]
  have hne : ¬m.isEmpty = true := by
    intro hc2
    exact hm (List.isEmpty_iff.mp hc2)
  rw [if_neg hne]
  simp [ha, hb, hc, hd]

/-- The anchored regex attempt succeeds right after the literal. -/
lemma matchAt_of_shape (m y tail : List Char)
    (hm : m ≠ []) (hma : ∀ x ∈ m, x.isAlpha = true)
    (hy4 : y.length = 4) (hyd : ∀ x ∈ y, x.isDigit = true) :
    matchAt (journalLit ++ (m ++ ' ' :: (y ++ tail))) = some (m ++ ' ' :: y) := by
  unfold matchAt
  rw [if_pos (List.isPrefixOf_iff_prefix.mpr (List.prefix_append _ _)), List.drop_left]
  exact matchAfterLit_of_shape m y tail hm hma hy4 hyd

/-- The search returns the group found by a successful anchored attempt at
the first position. -/
lemma searchGroup_of_matchAt {l g : List Char} (h : matchAt l = some g) :
    searchGroup l = some g := by
  cases l with
  | nil =>
    rw [(by decide : matchAt ([] : List Char) = none)] at h
    cases h
  | cons c rest =>
    unfold searchGroup
    rw [h]

/-- A name of the spec's shape satisfies the executable form check. -/
lemma specFormCheck_of_specPattern {fname month year ext : String}
    (hsp : specPattern fname month year ext) : specFormCheck fname = true := by
  obtain ⟨hname, hm, hma, hy4, hyd⟩ := hsp
  obtain ⟨a, b, c, d, hy⟩ := year_four hy4
  have ha : a.isDigit = true := hyd a (by rw [hy]; simp)
  have hb : b.isDigit = true := hyd b (by rw [hy]; simp)
  have hc : c.isDigit = true := hyd c (by rw [hy]; simp)
  have hd : d.isDigit = true := hyd d (by rw [hy]; simp)
  have hdata := specPattern_data hname
  rw [hy] at hdata
  have htw := takeWhile_alpha_run month.data ([a, b, c, d] ++ '.' :: ext.data) hma
  have hne : ¬month.data.isEmpty = true := by
    intro hc2
    exact hm (List.isEmpty_iff.mp hc2)
  unfold specFormCheck
  rw [hdata, if_pos (List.isPrefixOf_iff_prefix.mpr (List.prefix_append _ _)),
    List.drop_left]
  simp only [List.cons_append, List.nil_append] at htw ⊢
  rw [htw, List.drop_left, if_neg hne]
  simp [ha, hb, hc, hd]

/-- C3 (amended): an eligible name of the exact shape
"Sales Journal for <Month> <Year>.<ext>" yields the label "<Month> <Year>";
the label falls back to the whole file name exactly when the regex search
`Sales Journal for [A-Za-z]+ \d{4}` finds no match anywhere in the name. -/
theorem extract_label_amended :
    (∀ fname month year ext : String, is_valid_file fname = true →
      specPattern fname month year ext →
      extract_month_year fname = month ++ " " ++ year) ∧
    (∀ fname : String, searchGroup fname.data = none →
      extract_month_year fname = fname) := by
  constructor
  · intro fname month year ext hvalid hsp
    obtain ⟨hname, hm, hma, hy4, hyd⟩ := hsp
    have hdata := specPattern_data hname
    have hmatch := matchAt_of_shape month.data year.data ('.' :: ext.data) hm hma hy4 hyd
    have hsg : searchGroup fname.data = some (month.data ++ ' ' :: year.data) := by
      rw [hdata]
      exact searchGroup_of_matchAt hmatch
    unfold extract_month_year
    rw [hsg]
    apply String.ext
    have hsp1 : (" " : String).data = [' '] := rfl
    simp [String.data_append, hsp1]
  · intro fname hnone
    unfold extract_month_year
    rw [hnone]

/-- C3 counterexample: "Sales Journal for March 2024 v2.xlsx" is eligible and
does not have the spec's "<Month> <Year>.<ext>" shape, yet `re.search` still
finds "March 2024" inside it, so the label is not the full file name as the
claim requires. -/
theorem extract_fallback_counterexample :
    is_valid_file "Sales Journal for March 2024 v2.xlsx" = true ∧
    (¬ ∃ month year ext,
      specPattern "Sales Journal for March 2024 v2.xlsx" month year ext) ∧
    extract_month_year "Sales Journal for March 2024 v2.xlsx" = "March 2024" ∧
    ("March 2024" : String) ≠ "Sales Journal for March 2024 v2.xlsx" := by
  refine ⟨by decide, ?_, by decide, by decide⟩
  rintro ⟨month, year, ext, hsp⟩
  have hchk := specFormCheck_of_specPattern hsp
  rw [(by decide :
    specFormCheck "Sales Journal for March 2024 v2.xlsx" = false)] at hchk
  cases hchk

/-- Witness for `extract_label_amended`: both conjuncts applied at concrete
names. -/
theorem extract_label_amended_witness :
    extract_month_year "Sales Journal for March 2024.xlsx" = "March" ++ " " ++ "2024" ∧
    extract_month_year "receipts.xlsx" = "receipts.xlsx" :=
  ⟨extract_label_amended.1 "Sales Journal for March 2024.xlsx" "March" "2024" "xlsx"
      (by decide) ⟨by decide, by decide, by decide, by decide, by decide⟩,
   extract_label_amended.2 "receipts.xlsx" (by decide)⟩

/-- C10: the prefix check of `is_valid_file` is case-sensitive while the
extension check is case-insensitive: any name ending in a case-variant of
".xls" or ".xlsx" passes the extension test, while a name whose leading 18
characters differ from "Sales Journal for " only by letter case is
ineligible. -/
theorem case_asymmetric_eligibility :
    (∀ base e : String, (pyLower e = ".xls" ∨ pyLower e = ".xlsx") →
      extOk (base ++ e) = true) ∧
    (∀ p rest : String, pyLower p = pyLower "Sales Journal for " →
      p ≠ "Sales Journal for " → is_valid_file (p ++ rest) = false) := by
  constructor
  · rintro base e (he | he)
    · unfold extOk
      rw [pyLower_append, he, strEndsWith_append]
      simp
    · unfold extOk
      rw [pyLower_append, he, strEndsWith_append]
      simp
  · intro p rest hlow hne
    unfold is_valid_file
    have hsw : strStartsWith (p ++ rest) "Sales Journal for " = false := by
      rw [Bool.eq_false_iff]
      intro hc
      unfold strStartsWith at hc
      rw [List.isPrefixOf_iff_prefix] at hc
      rcases hc with ⟨u, hu⟩
      have hlen : p.data.length = 18 := by
        have h1 := pyLower_data_length p
        have h2 : (pyLower "Sales Journal for ").data.length = 18 := by decide
        rw [hlow, h2] at h1
        exact h1.symm
      have htake := congrArg (List.take 18) hu
      rw [String.data_append,
        List.take_left' (by decide : ("Sales Journal for " : String).data.length = 18),
        List.take_left' hlen] at htake
      exact hne (String.ext htake.symm)
    rw [hsw]
    rfl

/-- Witness for `case_asymmetric_eligibility`: an upper-case ".XLSX" passes
the extension test; a lower-case "sales journal for " prefix is rejected. -/
theorem case_asymmetric_eligibility_witness :
    extOk ("report" ++ ".XLSX") = true ∧
    is_valid_file ("sales journal for " ++ "March 2024.xlsx") = false :=
  ⟨case_asymmetric_eligibility.1 "report" ".XLSX" (Or.inr (by decide)),
   case_asymmetric_eligibility.2 "sales journal for " "March 2024.xlsx"
     (by decide) (by decide)⟩

/-! ### Helper lemmas about the loader's dictionary loop -/

/-- Insertion `dictInsert` never produces an empty dictionary. -/
lemma dictInsert_ne_nil (d : List (String × Table)) (k : String) (v : Table) :
    dictInsert d k v ≠ [] := by
  unfold dictInsert
  split
  next hany =>
    intro hnil
    rw [List.map_eq_nil_iff] at hnil
    subst hnil
    simp at hany
  next =>
    simp

/-- The loop result is empty exactly when the accumulator started empty and
no entry was eligible. -/
lemma loadDir_eq_nil_iff (es : List (String × Table)) (acc : List (String × Table)) :
    loadDir acc es = [] ↔ acc = [] ∧ ∀ e ∈ es, is_valid_file e.1 = false := by
  induction es generalizing acc with
  | nil => simp [loadDir]
  | cons e es ih =>
    rw [loadDir]
    by_cases hv : is_valid_file e.1 = true
    · rw [if_pos hv, ih]
      constructor
      · rintro ⟨habs, -⟩
        exact absurd habs (dictInsert_ne_nil _ _ _)
      · rintro ⟨-, hall⟩
        exact absurd (hall e (List.mem_cons_self e es)) (by simp [hv])
    · rw [if_neg hv, ih]
      constructor
      · rintro ⟨ha, hall⟩
        refine ⟨ha, ?_⟩
        intro x hx
        rcases List.mem_cons.mp hx with hx | hx
        · subst hx
          exact Bool.eq_false_iff.mpr hv
        · exact hall x hx
      · rintro ⟨ha, hall⟩
        exact ⟨ha, fun x hx => hall x (List.mem_cons_of_mem _ hx)⟩

/-- Inserting under a different key keeps an entry in the dictionary. -/
lemma dictInsert_mem_other {d : List (String × Table)} {k : String} {t : Table}
    (hmem : (k, t) ∈ d) (k' : String) (v : Table) (hne : k' ≠ k) :
    (k, t) ∈ dictInsert d k' v := by
  unfold dictInsert
  split
  · have hif : (k == k') = false := by
      rw [beq_eq_false_iff_ne]
      exact fun hc => hne hc.symm
    refine List.mem_map.mpr ⟨(k, t), hmem, ?_⟩
    simp [hif]
  · exact List.mem_append_left _ hmem

/-- The freshly inserted pair is always a member. -/
lemma dictInsert_mem_self (d : List (String × Table)) (k : String) (v : Table) :
    (k, v) ∈ dictInsert d k v := by
  unfold dictInsert
  split
  next hany =>
    rcases List.any_eq_true.mp hany with ⟨p, hp, hpk⟩
    refine List.mem_map.mpr ⟨p, hp, ?_⟩
    simp [hpk]
  next =>
    exact List.mem_append_right _ (by simp)

/-- Later loop iterations that never reuse the key keep an entry. -/
lemma loadDir_mem_preserved {k : String} {t : Table}
    (es : List (String × Table)) (acc : List (String × Table))
    (hmem : (k, t) ∈ acc)
    (hno : ∀ e ∈ es, is_valid_file e.1 = true → extract_month_year e.1 ≠ k) :
    (k, t) ∈ loadDir acc es := by
  induction es generalizing acc with
  | nil => exact hmem
  | cons e es ih =>
    rw [loadDir]
    by_cases hv : is_valid_file e.1 = true
    · rw [if_pos hv]
      exact ih _ (dictInsert_mem_other hmem _ _ (hno e (List.mem_cons_self e es) hv))
        (fun x hx hvx => hno x (List.mem_cons_of_mem _ hx) hvx)
    · rw [if_neg hv]
      exact ih _ hmem (fun x hx hvx => hno x (List.mem_cons_of_mem _ hx) hvx)

/-- Discharging the nodup hypothesis across an eligible head entry. -/
lemma nodup_labels_cons {e : String × Table} {es : List (String × Table)}
    (hve : is_valid_file e.1 = true)
    (hnd : (((e :: es).filter (fun x => is_valid_file x.1)).map
      (fun x => extract_month_year x.1)).Nodup) :
    ((es.filter (fun x => is_valid_file x.1)).map
      (fun x => extract_month_year x.1)).Nodup ∧
    ∀ x ∈ es, is_valid_file x.1 = true →
      extract_month_year x.1 ≠ extract_month_year e.1 := by
  have hfc : List.filter (fun x : String × Table => is_valid_file x.1) (e :: es)
      = e :: List.filter (fun x => is_valid_file x.1) es := by
    rw [List.filter_cons]
    simp [hve]
  rw [hfc, List.map_cons, List.nodup_cons] at hnd
  refine ⟨hnd.2, ?_⟩
  intro x hx hvx hc
  exact hnd.1 (hc ▸ List.mem_map_of_mem _ (List.mem_filter.mpr ⟨hx, hvx⟩))

/-- Discharging the nodup hypothesis across an ineligible head entry. -/
lemma nodup_labels_cons_of_neg {e : String × Table} {es : List (String × Table)}
    (hve : ¬ is_valid_file e.1 = true)
    (hnd : (((e :: es).filter (fun x => is_valid_file x.1)).map
      (fun x => extract_month_year x.1)).Nodup) :
    ((es.filter (fun x => is_valid_file x.1)).map
      (fun x => extract_month_year x.1)).Nodup := by
  have hfc : List.filter (fun x : String × Table => is_valid_file x.1) (e :: es)
      = List.filter (fun x => is_valid_file x.1) es := by
    rw [List.filter_cons]
    simp [hve]
  rwa [hfc] at hnd

/-- When the labels of the eligible entries are pairwise distinct, every
eligible entry survives the directory loop under its derived label. -/
lemma loadDir_mem {es : List (String × Table)} {n : String} {t : Table}
    (hmem : (n, t) ∈ es) (hv : is_valid_file n = true)
    (hnd : ((es.filter (fun e => is_valid_file e.1)).map
      (fun e => extract_month_year e.1)).Nodup)
    (acc : List (String × Table)) :
    (extract_month_year n, t) ∈ loadDir acc es := by
  induction es generalizing acc with
  | nil => cases hmem
  | cons e es ih =>
    rw [loadDir]
    rcases List.mem_cons.mp hmem with he | he
    · subst he
      rw [if_pos (show is_valid_file (n, t).1 = true from hv)]
      apply loadDir_mem_preserved es _ (dictInsert_mem_self acc (extract_month_year n) t)
      exact (nodup_labels_cons hv hnd).2
    · by_cases hve : is_valid_file e.1 = true
      · rw [if_pos hve]
        exact ih he (nodup_labels_cons hve hnd).1 _
      · rw [if_neg hve]
        exact ih he (nodup_labels_cons_of_neg hve hnd) _

/-- C4 (amended): with a supplied path, the loader raises exactly the errors
of the spec's taxonomy, with an ineligible single file falling under the
invalid-path error rather than the no-data error: invalid-path iff the path
is neither a directory nor an eligible file; no-data iff the path is a
directory with no eligible entries; and a returned mapping otherwise. -/
theorem import_errors_iff (p : PathInput) :
    (import_excel_files p = .error .invalidPath ↔
      p = .invalid ∨ ∃ n t, p = .file n t ∧ is_valid_file n = false) ∧
    (import_excel_files p = .error .noData ↔
      ∃ es, p = .dir es ∧ ∀ e ∈ es, is_valid_file e.1 = false) ∧
    ((∃ r, import_excel_files p = .ok r) ↔
      ¬(p = .invalid ∨ (∃ n t, p = .file n t ∧ is_valid_file n = false) ∨
        ∃ es, p = .dir es ∧ ∀ e ∈ es, is_valid_file e.1 = false)) := by
  rcases p with ⟨name, tbl⟩ | es | _
  · by_cases hv : is_valid_file name = true
    · have hok : import_excel_files (.file name tbl)
          = .ok (dictInsert [] (extract_month_year name) tbl) := by
        simp only [import_excel_files]
        rw [if_pos hv, if_neg (by
          rw [Bool.not_eq_true, Bool.eq_false_iff]
          intro hc
          exact dictInsert_ne_nil [] (extract_month_year name) tbl
            (List.isEmpty_iff.mp hc))]
      refine ⟨by rw [hok]; simp [hv], by rw [hok]; simp, by rw [hok]; simp [hv]⟩
    · have hv2 : is_valid_file name = false := Bool.eq_false_iff.mpr hv
      have herr : import_excel_files (.file name tbl) = .error .invalidPath := by
        simp only [import_excel_files]
        rw [if_neg hv]
      refine ⟨by rw [herr]; simp [hv2], by rw [herr]; simp, by rw [herr]; simp [hv2]⟩
  · have hstep : import_excel_files (.dir es)
        = if (loadDir [] es).isEmpty = true then .error .noData
          else .ok (loadDir [] es) := rfl
    by_cases hempty : (loadDir [] es).isEmpty = true
    · have hall := (loadDir_eq_nil_iff es []).mp (List.isEmpty_iff.mp hempty)
      have herr : import_excel_files (.dir es) = .error .noData := by
        rw [hstep, if_pos hempty]
      have hcomp : ∀ a b, (a, b) ∈ es → is_valid_file a = false :=
        fun a b hab => hall.2 (a, b) hab
      refine ⟨by rw [herr]; simp, ?_, ?_⟩
      · rw [herr]
        simp
        exact hcomp
      · rw [herr]
        simp
        exact hcomp
    · have hok : import_excel_files (.dir es) = .ok (loadDir [] es) := by
        rw [hstep, if_neg hempty]
      have hnall : ¬ ∀ e ∈ es, is_valid_file e.1 = false := by
        intro hc
        exact hempty (List.isEmpty_iff.mpr ((loadDir_eq_nil_iff es []).mpr ⟨rfl, hc⟩))
      have hex : ∃ a b, (a, b) ∈ es ∧ is_valid_file a = true := by
        by_contra hc
        push_neg at hc
        apply hnall
        intro e he
        exact Bool.eq_false_iff.mpr (hc e.1 e.2 he)
      rcases hex with ⟨a, b, hab, hva⟩
      refine ⟨by rw [hok]; simp, ?_, ?_⟩
      · rw [hok]
        simp
        exact ⟨a, ⟨b, hab⟩, hva⟩
      · rw [hok]
        simp
        exact ⟨a, ⟨b, hab⟩, hva⟩
  · refine ⟨by simp [import_excel_files], by simp [import_excel_files],
      by simp [import_excel_files]⟩

/-- C4 counterexample: an existing but ineligible single file (here
"data.xlsx") raises the invalid-path error, not the no-data error the claim
assigns to that case. -/
theorem ineligible_file_error_counterexample :
    import_excel_files (.file "data.xlsx" ⟨[], []⟩) = .error .invalidPath ∧
    import_excel_files (.file "data.xlsx" ⟨[], []⟩) ≠ .error .noData := by
  decide

/-- C7 (amended): when the derived labels of the eligible entries of a
directory are pairwise distinct, every eligible source appears in the
loader's output mapping under its own label. -/
theorem loader_keeps_distinct_labels (es : List (String × Table)) (n : String)
    (t : Table) (hmem : (n, t) ∈ es) (hv : is_valid_file n = true)
    (hnd : ((es.filter (fun e => is_valid_file e.1)).map
      (fun e => extract_month_year e.1)).Nodup) :
    ∃ r, import_excel_files (.dir es) = .ok r ∧ (extract_month_year n, t) ∈ r := by
  have hm := loadDir_mem hmem hv hnd []
  refine ⟨loadDir [] es, ?_, hm⟩
  simp only [import_excel_files]
  rw [if_neg (by
    rw [Bool.not_eq_true, Bool.eq_false_iff]
    intro hc
    exact List.ne_nil_of_mem hm (List.isEmpty_iff.mp hc))]

/-- C7 counterexample: two distinct eligible sources whose names derive the
same label "March 2024"; the loader returns a single entry holding only the
later table, silently dropping the earlier source. -/
theorem label_collision_counterexample :
    import_excel_files (.dir
      [("Sales Journal for March 2024.xlsx", ⟨["a"], []⟩),
       ("Sales Journal for March 2024.xls", ⟨["b"], []⟩)])
      = .ok [("March 2024", ⟨["b"], []⟩)] ∧
    (⟨["a"], []⟩ : Table) ≠ (⟨["b"], []⟩ : Table) ∧
    ∀ q ∈ [(("March 2024" : String), (⟨["b"], []⟩ : Table))],
      q.2 ≠ (⟨["a"], []⟩ : Table) := by
  decide

/-- Witness for `loader_keeps_distinct_labels`: a directory with a March and
an April journal; the March source appears under its own label. -/
theorem loader_keeps_distinct_labels_witness :
    ∃ r, import_excel_files (.dir
      [("Sales Journal for March 2024.xlsx", Table.mk ["a"] []),
       ("Sales Journal for April 2024.xlsx", Table.mk ["b"] [])]) = .ok r ∧
      ("March 2024", Table.mk ["a"] []) ∈ r := by
  have h := loader_keeps_distinct_labels
    [("Sales Journal for March 2024.xlsx", Table.mk ["a"] []),
     ("Sales Journal for April 2024.xlsx", Table.mk ["b"] [])]
    "Sales Journal for March 2024.xlsx" (Table.mk ["a"] [])
    (by decide) (by decide) (by decide)
  simpa only [(by decide :
    extract_month_year "Sales Journal for March 2024.xlsx" = "March 2024")] using h

end ScUnitAgg
